import Mathlib

/-!
Shallow embedding of the watercolor painting core:
the jitter sampler `uniform`, the recursive subdivider `generateLayer`,
the layer-set generator `generatePathList` (src/utils/painting.ts),
the mask-synthesis alpha formula (generateFilterCanvas), the mask-skip
conditional of generatePaintedCanvas, and the history reducer of App.tsx.

Randomness (Math.random) is modelled as an explicit stream `g : ℕ → ℚ`
of draws together with a draw counter that every consumer threads through
and returns, so that sequential consumption of the process-wide source is
explicit. Coordinates and weights are rationals.
-/

namespace Watercolor

/-- A path vertex `[x, y, r]`: coordinates plus the per-vertex weight
(the third tuple component of the source's `[number, number, number]`). -/
structure WPoint where
  x : ℚ
  y : ℚ
  r : ℚ
  deriving DecidableEq, Repr

instance : Inhabited WPoint := ⟨⟨0, 0, 0⟩⟩

/-- Stream of values produced by successive Math.random() calls. -/
abbrev RandStream := ℕ → ℚ

/-- Source: `const uniform = (centroid, radius) => Math.random() * radius * 2 + centroid - radius;`
with `rand` the value drawn from the random source. -/
def uniform (rand centroid radius : ℚ) : ℚ :=
  rand * radius * 2 + centroid - radius

/-- The inner `for j` loop of one subdivision pass of `generateLayer`,
started at index `j` with draw counter `k`.  For each `j`,
`p1 = currPath[(j || currPath.length) - 1]` (the previous vertex, cyclically:
the last vertex when `j = 0`), `p2 = currPath[j]`,
`rm = ((r1 + r2) * temperature) / 2`, and the pass pushes the jittered
midpoint `pm` followed by `p2`.  Returns the built list together with the
updated draw counter (two draws per `j`). -/
def subdivideFrom (g : RandStream) (baseRadius temperature : ℚ)
    (currPath : List WPoint) (j k : ℕ) : List WPoint × ℕ :=
  if j < currPath.length then
    let p1 := currPath.getD ((if j = 0 then currPath.length else j) - 1) default
    let p2 := currPath.getD j default
    let rm := (p1.r + p2.r) * temperature / 2
    let pm : WPoint :=
      ⟨uniform (g k) ((p1.x + p2.x) / 2) (baseRadius * rm),
       uniform (g (k + 1)) ((p1.y + p2.y) / 2) (baseRadius * rm),
       rm⟩
    let rest := subdivideFrom g baseRadius temperature currPath (j + 1) (k + 2)
    (pm :: p2 :: rest.1, rest.2)
  else ([], k)
  termination_by currPath.length - j

/-- The outer `for i` loop of `generateLayer`: apply `iterations`
subdivision passes to `currPath`, threading the draw counter. -/
def generateLayerAux (g : RandStream) (baseRadius temperature : ℚ) :
    ℕ → List WPoint → ℕ → List WPoint × ℕ
  | 0, currPath, k => (currPath, k)
  | i + 1, currPath, k =>
    let step := subdivideFrom g baseRadius temperature currPath 0 k
    generateLayerAux g baseRadius temperature i step.1 step.2

/-- Options record of `generateLayer` (`PathOptions` in the source). -/
structure PathOptions where
  path : List WPoint
  baseRadius : ℚ
  temperature : ℚ
  iterations : ℕ

/-- Source `generateLayer`: subdivide `path` `iterations` times. -/
def generateLayer (g : RandStream) (o : PathOptions) (k : ℕ) : List WPoint × ℕ :=
  generateLayerAux g o.baseRadius o.temperature o.iterations o.path k

/-- Options record of `generatePathList` (`PathListOptions` in the source). -/
structure PathListOptions extends PathOptions where
  layers : ℕ
  preIterations : ℕ

/-- The `Array.from({ length: layers }, () => generateLayer({... basePath ...}))`
step of `generatePathList`: build `n` layers from the shared `basePath`,
each consuming fresh draws from the stream. -/
def generateLayersAux (g : RandStream) (baseRadius temperature : ℚ) (iterations : ℕ)
    (basePath : List WPoint) : ℕ → ℕ → List (List WPoint) × ℕ
  | 0, k => ([], k)
  | n + 1, k =>
    let layer := generateLayerAux g baseRadius temperature iterations basePath k
    let rest := generateLayersAux g baseRadius temperature iterations basePath n layer.2
    (layer.1 :: rest.1, rest.2)

/-- Source `generatePathList`: derive a shared `basePath` by subdividing
`path` `preIterations` times, then build `layers` independent layers by
subdividing that same `basePath` a further `iterations` times each. -/
def generatePathList (g : RandStream) (o : PathListOptions) (k : ℕ) :
    List (List WPoint) × ℕ :=
  let base := generateLayerAux g o.baseRadius o.temperature o.preIterations o.path k
  generateLayersAux g o.baseRadius o.temperature o.iterations base.1 o.layers base.2

/-- The vertex `pm` pushed by the pass body at loop index `j` with draw
counter `k`: the jittered midpoint of `p1 = currPath[(j || length) - 1]`
and `p2 = currPath[j]`, carrying weight `rm`. -/
def passMid (g : RandStream) (baseRadius temperature : ℚ) (p : List WPoint)
    (k j : ℕ) : WPoint :=
  let p1 := p.getD ((if j = 0 then p.length else j) - 1) default
  let p2 := p.getD j default
  let rm := (p1.r + p2.r) * temperature / 2
  ⟨uniform (g k) ((p1.x + p2.x) / 2) (baseRadius * rm),
   uniform (g (k + 1)) ((p1.y + p2.y) / 2) (baseRadius * rm),
   rm⟩

/-! ## Mask synthesis (generateFilterCanvas)

The blur library `glur/mono16` is external; the blurred 16-bit noise grid
is abstracted as a function from array index to value.  What the source
computes per pixel is the alpha formula below, over JS floats, here over ℝ
because of the fractional exponent `Math.pow(filterRadius, 1.5)`. -/

/-- Source: `const weight = Math.pow(filterRadius, 1.5) * filterWeight;`. -/
noncomputable def maskWeight (filterRadius filterWeight : ℝ) : ℝ :=
  filterRadius ^ (1.5 : ℝ) * filterWeight

/-- Source: `const alpha = 255 + Math.min(0, (u16 / 256 - 128) * weight);`
(the value computed before it is stored into the Uint8ClampedArray). -/
noncomputable def maskAlpha (filterRadius filterWeight u16 : ℝ) : ℝ :=
  255 + min 0 ((u16 / 256 - 128) * maskWeight filterRadius filterWeight)

/-- The per-pixel loop body of `generateFilterCanvas`: the alpha written at
pixel `(i, j)` reads `u16array[(i + padding) * blurWidth + j + padding]`,
with `u16array` the blurred noise grid. -/
noncomputable def filterAlphaAt (u16array : ℕ → ℝ) (blurWidth padding : ℕ)
    (filterRadius filterWeight : ℝ) (i j : ℕ) : ℝ :=
  maskAlpha filterRadius filterWeight (u16array ((i + padding) * blurWidth + j + padding))

/-! ## Painted-canvas pipeline (generatePaintedCanvas)

HTML-canvas rasterization is external; the layer-fill stage is abstracted
as `render` (draw every layer into a fresh buffer) and the mask stage as
`applyFilter` (composite the filter canvas with `source-in`).  What the
source decides is which stages run: the filter stage runs only under the
truthiness test `if (filterRadius && filterWeight)`. -/

/-- Source `generatePaintedCanvas`: generate the layer list, render it, and
apply the mask stage only when both `filterRadius` and `filterWeight` are
nonzero (JS truthiness of `filterRadius && filterWeight`). -/
def generatePaintedCanvas (Buf : Type) (render : List (List WPoint) → Buf)
    (applyFilter : ℚ → ℚ → Buf → Buf) (g : RandStream) (o : PathListOptions)
    (filterRadius filterWeight : ℚ) (k : ℕ) : Buf :=
  let layerList := (generatePathList g o k).1
  let base := render layerList
  if filterRadius ≠ 0 ∧ filterWeight ≠ 0 then applyFilter filterRadius filterWeight base
  else base

/-! ## History reducer (App.tsx)

State `{ history: ImageData[]; index: number }` with actions
push / undo / redo / clear.  `ImageData` buffers are abstracted as a type
parameter `Buf`; the canvas is `Option Buf` (`canvasRef.current` may be
null, in which case the reducer returns the state unchanged).
`clearCanvas` paints the canvas to the background, modelled by `blank`;
`context.getImageData` snapshots the whole current buffer;
`context.putImageData h[i]` replaces the buffer by snapshot `h[i]`.
The index is an integer, as in JS. -/

/-- Reducer action type. -/
inductive HistAction
  | push
  | undo
  | redo
  | clear
  deriving DecidableEq, Repr

/-- Reducer state `{ history, index }`. -/
structure HistState (Buf : Type) where
  history : List Buf
  index : ℤ
  deriving DecidableEq, Repr

/-- One dispatch of the `setHistory` reducer, also returning the canvas
contents after the dispatch.  Mirrors the `switch (action)` of App.tsx:
push splices the history at `index`, appends a snapshot of the current
buffer and increments `index`; undo (when `index > 0`) clears to `blank`,
restores `history[index - 2]` when `index > 1` and decrements; redo (when
`index < history.length`) clears, restores `history[index]` and
increments; clear empties the history.  A null canvas is a no-op. -/
def histStep {Buf : Type} (blank : Buf) (st : HistState Buf) (buf : Option Buf)
    (a : HistAction) : HistState Buf × Option Buf :=
  match buf with
  | none => (st, none)
  | some b =>
    match a with
    | .push => (⟨st.history.take st.index.toNat ++ [b], st.index + 1⟩, some b)
    | .undo =>
      if 0 < st.index then
        (⟨st.history, st.index - 1⟩,
         some (if 1 < st.index then st.history.getD (st.index - 2).toNat blank else blank))
      else (st, some b)
    | .redo =>
      if st.index < (st.history.length : ℤ) then
        (⟨st.history, st.index + 1⟩, some (st.history.getD st.index.toNat blank))
      else (st, some b)
    | .clear => (⟨[], 0⟩, some b)

/-- A session event: either the compositor repaints the canvas (external
to the reducer) or a reducer action is dispatched. -/
inductive Event (Buf : Type)
  | paint (b : Buf)
  | act (a : HistAction)

/-- Run a sequence of session events from a reducer state and canvas. -/
def runEvents {Buf : Type} (blank : Buf) :
    HistState Buf → Option Buf → List (Event Buf) → HistState Buf × Option Buf
  | st, _, .paint b :: es => runEvents blank st (some b) es
  | st, buf, .act a :: es =>
    let r := histStep blank st buf a
    runEvents blank r.1 r.2 es
  | st, buf, [] => (st, buf)

/-- The reducer's initial state `{ history: [], index: 0 }`. -/
def histInit (Buf : Type) : HistState Buf := ⟨[], 0⟩

/-- The cursor invariant: `0 ≤ index ≤ history.length`. -/
def HistInv {Buf : Type} (st : HistState Buf) : Prop :=
  0 ≤ st.index ∧ st.index ≤ (st.history.length : ℤ)

instance {Buf : Type} (st : HistState Buf) : Decidable (HistInv st) :=
  inferInstanceAs (Decidable (_ ∧ _))

/-! ## Concrete fixtures used to instantiate the theorems -/

/-- A degenerate random stream that always draws 0. -/
def gZero : RandStream := fun _ => 0

/-- A two-vertex path. -/
def pathTwo : List WPoint := [⟨0, 0, 1⟩, ⟨4, 2, 1⟩]

/-- A one-layer configuration over `pathTwo` with no subdivision. -/
def optsTwo : PathListOptions := ⟨⟨pathTwo, 1, 1, 0⟩, 1, 0⟩

/-! ## Helper lemmas on the subdivision pass -/

lemma subdivideFrom_eq_nil (g : RandStream) (br t : ℚ) (p : List WPoint) (j k : ℕ)
    (h : ¬ j < p.length) : subdivideFrom g br t p j k = ([], k) := by
  rw [subdivideFrom]
  simp [h]

lemma subdivideFrom_eq_cons (g : RandStream) (br t : ℚ) (p : List WPoint) (j k : ℕ)
    (h : j < p.length) :
    subdivideFrom g br t p j k =
      (passMid g br t p k j :: p.getD j default :: (subdivideFrom g br t p (j + 1) (k + 2)).1,
       (subdivideFrom g br t p (j + 1) (k + 2)).2) := by
  rw [subdivideFrom]
  simp [h, passMid]

lemma subdivideFrom_length (g : RandStream) (br t : ℚ) (p : List WPoint) :
    ∀ j k, (subdivideFrom g br t p j k).1.length = 2 * (p.length - j) := by
  have key : ∀ n j k, p.length - j ≤ n →
      (subdivideFrom g br t p j k).1.length = 2 * (p.length - j) := by
    intro n
    induction n with
    | zero =>
      intro j k h
      rw [subdivideFrom_eq_nil g br t p j k (by omega)]
      simp
      omega
    | succ n ih =>
      intro j k h
      by_cases hj : j < p.length
      · rw [subdivideFrom_eq_cons g br t p j k hj]
        simp only [List.length_cons]
        rw [ih (j + 1) (k + 2) (by omega)]
        omega
      · rw [subdivideFrom_eq_nil g br t p j k hj]
        simp
        omega
  intro j k
  exact key (p.length - j) j k le_rfl

lemma subdivideFrom_get (g : RandStream) (br t : ℚ) (p : List WPoint) :
    ∀ i j k, j + i < p.length →
      (subdivideFrom g br t p j k).1.get? (2 * i) =
        some (passMid g br t p (k + 2 * i) (j + i)) ∧
      (subdivideFrom g br t p j k).1.get? (2 * i + 1) =
        some (p.getD (j + i) default) := by
  intro i
  induction i with
  | zero =>
    intro j k h
    rw [subdivideFrom_eq_cons g br t p j k (by omega)]
    simp
  | succ i ih =>
    intro j k h
    rw [subdivideFrom_eq_cons g br t p j k (by omega)]
    have h2 : 2 * (i + 1) = 2 * i + 1 + 1 := by ring
    rw [h2]
    have hrec := ih (j + 1) (k + 2) (by omega)
    have e1 : k + 2 + 2 * i = k + 2 * (i + 1) := by ring
    have e2 : j + 1 + i = j + (i + 1) := by omega
    rw [e1, e2] at hrec
    simpa using hrec

lemma generateLayerAux_length (g : RandStream) (br t : ℚ) :
    ∀ (n : ℕ) (p : List WPoint) (k : ℕ),
      (generateLayerAux g br t n p k).1.length = p.length * 2 ^ n := by
  intro n
  induction n with
  | zero =>
    intro p k
    simp [generateLayerAux]
  | succ n ih =>
    intro p k
    show (generateLayerAux g br t n (subdivideFrom g br t p 0 k).1
        (subdivideFrom g br t p 0 k).2).1.length = p.length * 2 ^ (n + 1)
    rw [ih, subdivideFrom_length]
    rw [pow_succ, Nat.sub_zero]
    ring

/-! ## C1: subdivision pass lengths -/

/-- C1: for every input path of length L ≥ 2 and every draw position, one
subdivision pass of generateLayer yields a path of length exactly 2L,
n passes yield length L * 2^n, and with iterations = 0 the returned path
is identical to the input (same points, same order). -/
theorem generateLayer_length_spec (g : RandStream) (br t : ℚ) (p : List WPoint)
    (k : ℕ) (hp : 2 ≤ p.length) :
    (generateLayer g ⟨p, br, t, 1⟩ k).1.length = 2 * p.length ∧
    (∀ n, (generateLayer g ⟨p, br, t, n⟩ k).1.length = p.length * 2 ^ n) ∧
    (generateLayer g ⟨p, br, t, 0⟩ k).1 = p := by
  refine ⟨?_, fun n => generateLayerAux_length g br t n p k, rfl⟩
  have h1 := generateLayerAux_length g br t 1 p k
  simpa [generateLayer, pow_one, Nat.mul_comm] using h1

/-- Witness for C1 at a concrete two-vertex path. -/
theorem generateLayer_length_spec_witness :
    2 ≤ pathTwo.length ∧
    ((generateLayer gZero ⟨pathTwo, 1, 1, 1⟩ 0).1.length = 2 * pathTwo.length ∧
     (∀ n, (generateLayer gZero ⟨pathTwo, 1, 1, n⟩ 0).1.length = pathTwo.length * 2 ^ n) ∧
     (generateLayer gZero ⟨pathTwo, 1, 1, 0⟩ 0).1 = pathTwo) :=
  ⟨by decide, generateLayer_length_spec gZero 1 1 pathTwo 0 (by decide)⟩

/-! ## C2: structure of one subdivision pass -/

/-- C2: in one subdivision pass, for every loop index j the pair
(p1, p2) is cyclic (j = 0 pairs the last point with the first), the
midpoint weight is rm = (p1.r + p2.r) * temperature / 2, the inserted
vertex at output position 2j is a jitter sample centered at the segment
midpoint with sampling radius baseRadius * rm in each coordinate carrying
weight rm (consuming draws k + 2j and k + 2j + 1), and p2 is carried
unmodified at output position 2j + 1. -/
theorem subdivide_pass_structure (g : RandStream) (br t : ℚ) (p : List WPoint)
    (k j : ℕ) (hj : j < p.length) :
    (generateLayer g ⟨p, br, t, 1⟩ k).1.get? (2 * j) =
      some ⟨uniform (g (k + 2 * j))
              (((p.getD ((if j = 0 then p.length else j) - 1) default).x
                  + (p.getD j default).x) / 2)
              (br * (((p.getD ((if j = 0 then p.length else j) - 1) default).r
                  + (p.getD j default).r) * t / 2)),
            uniform (g (k + 2 * j + 1))
              (((p.getD ((if j = 0 then p.length else j) - 1) default).y
                  + (p.getD j default).y) / 2)
              (br * (((p.getD ((if j = 0 then p.length else j) - 1) default).r
                  + (p.getD j default).r) * t / 2)),
            ((p.getD ((if j = 0 then p.length else j) - 1) default).r
                  + (p.getD j default).r) * t / 2⟩ ∧
    (generateLayer g ⟨p, br, t, 1⟩ k).1.get? (2 * j + 1) = some (p.getD j default) := by
  have h := subdivideFrom_get g br t p j 0 k (by omega)
  simpa [passMid, generateLayer, generateLayerAux] using h

/-- Witness for C2 at the concrete path `pathTwo`, loop index 0. -/
theorem subdivide_pass_structure_witness :
    (generateLayer gZero ⟨pathTwo, 1, 1, 1⟩ 0).1.get? (2 * 0) =
      some ⟨uniform (gZero (0 + 2 * 0))
              (((pathTwo.getD ((if 0 = 0 then pathTwo.length else 0) - 1) default).x
                  + (pathTwo.getD 0 default).x) / 2)
              (1 * (((pathTwo.getD ((if 0 = 0 then pathTwo.length else 0) - 1) default).r
                  + (pathTwo.getD 0 default).r) * 1 / 2)),
            uniform (gZero (0 + 2 * 0 + 1))
              (((pathTwo.getD ((if 0 = 0 then pathTwo.length else 0) - 1) default).y
                  + (pathTwo.getD 0 default).y) / 2)
              (1 * (((pathTwo.getD ((if 0 = 0 then pathTwo.length else 0) - 1) default).r
                  + (pathTwo.getD 0 default).r) * 1 / 2)),
            ((pathTwo.getD ((if 0 = 0 then pathTwo.length else 0) - 1) default).r
                  + (pathTwo.getD 0 default).r) * 1 / 2⟩ ∧
    (generateLayer gZero ⟨pathTwo, 1, 1, 1⟩ 0).1.get? (2 * 0 + 1) =
      some (pathTwo.getD 0 default) :=
  subdivide_pass_structure gZero 1 1 pathTwo 0 0 (by decide)

/-! ## C10: determinism when temperature = 0 or baseRadius = 0 -/

lemma uniform_radius_zero (rand c : ℚ) : uniform rand c 0 = c := by
  unfold uniform
  ring

lemma passMid_det (g g' : RandStream) (br t : ℚ) (p : List WPoint) (k k' j : ℕ)
    (h : t = 0 ∨ br = 0) : passMid g br t p k j = passMid g' br t p k' j := by
  rcases h with h | h
  · simp [passMid, h, mul_zero, zero_div, uniform_radius_zero]
  · simp [passMid, h, zero_mul, uniform_radius_zero]

lemma subdivideFrom_det (g g' : RandStream) (br t : ℚ) (p : List WPoint)
    (h : t = 0 ∨ br = 0) :
    ∀ j k k', (subdivideFrom g br t p j k).1 = (subdivideFrom g' br t p j k').1 := by
  have key : ∀ n j k k', p.length - j ≤ n →
      (subdivideFrom g br t p j k).1 = (subdivideFrom g' br t p j k').1 := by
    intro n
    induction n with
    | zero =>
      intro j k k' hn
      rw [subdivideFrom_eq_nil g br t p j k (by omega),
        subdivideFrom_eq_nil g' br t p j k' (by omega)]
    | succ n ih =>
      intro j k k' hn
      by_cases hj : j < p.length
      · rw [subdivideFrom_eq_cons g br t p j k hj,
          subdivideFrom_eq_cons g' br t p j k' hj]
        rw [passMid_det g g' br t p k k' j h, ih (j + 1) (k + 2) (k' + 2) (by omega)]
      · rw [subdivideFrom_eq_nil g br t p j k hj, subdivideFrom_eq_nil g' br t p j k' hj]
  intro j k k'
  exact key (p.length - j) j k k' le_rfl

lemma generateLayerAux_det (g g' : RandStream) (br t : ℚ) (h : t = 0 ∨ br = 0) :
    ∀ (n : ℕ) (p : List WPoint) (k k' : ℕ),
      (generateLayerAux g br t n p k).1 = (generateLayerAux g' br t n p k').1 := by
  intro n
  induction n with
  | zero =>
    intro p k k'
    rfl
  | succ n ih =>
    intro p k k'
    show (generateLayerAux g br t n (subdivideFrom g br t p 0 k).1
            (subdivideFrom g br t p 0 k).2).1
        = (generateLayerAux g' br t n (subdivideFrom g' br t p 0 k').1
            (subdivideFrom g' br t p 0 k').2).1
    rw [← subdivideFrom_det g g' br t p h 0 k k']
    exact ih _ _ _

/-- C10: with temperature = 0 or baseRadius = 0, generateLayer is
deterministic: two runs consuming arbitrary, different random streams (at
arbitrary draw positions) produce identical outputs, and every inserted
vertex lies exactly at the midpoint of its adjacent pair with weight
(p1.r + p2.r) * temperature / 2. -/
theorem generateLayer_deterministic (g g' : RandStream) (br t : ℚ) (p : List WPoint)
    (h : t = 0 ∨ br = 0) (hp : 2 ≤ p.length) :
    (∀ n k k', (generateLayer g ⟨p, br, t, n⟩ k).1 = (generateLayer g' ⟨p, br, t, n⟩ k').1) ∧
    (∀ j k, j < p.length →
      (generateLayer g ⟨p, br, t, 1⟩ k).1.get? (2 * j) =
        some ⟨((p.getD ((if j = 0 then p.length else j) - 1) default).x
                  + (p.getD j default).x) / 2,
              ((p.getD ((if j = 0 then p.length else j) - 1) default).y
                  + (p.getD j default).y) / 2,
              ((p.getD ((if j = 0 then p.length else j) - 1) default).r
                  + (p.getD j default).r) * t / 2⟩) := by
  constructor
  · intro n k k'
    exact generateLayerAux_det g g' br t h n p k k'
  · intro j k hj
    have hg := (subdivideFrom_get g br t p j 0 k (by omega)).1
    have hm : passMid g br t p (k + 2 * j) (0 + j) =
        ⟨((p.getD ((if j = 0 then p.length else j) - 1) default).x
            + (p.getD j default).x) / 2,
         ((p.getD ((if j = 0 then p.length else j) - 1) default).y
            + (p.getD j default).y) / 2,
         ((p.getD ((if j = 0 then p.length else j) - 1) default).r
            + (p.getD j default).r) * t / 2⟩ := by
      rcases h with h | h
      · simp [passMid, h, mul_zero, zero_div, uniform_radius_zero]
      · simp [passMid, h, zero_mul, uniform_radius_zero]
    rw [hm] at hg
    simpa [generateLayer, generateLayerAux] using hg

/-- Witness for C10: temperature 0, two distinct streams, concrete path. -/
theorem generateLayer_deterministic_witness :
    (∀ n k k', (generateLayer gZero ⟨pathTwo, 1, 0, n⟩ k).1
        = (generateLayer (fun i => i) ⟨pathTwo, 1, 0, n⟩ k').1) ∧
    (∀ j k, j < pathTwo.length →
      (generateLayer gZero ⟨pathTwo, 1, 0, 1⟩ k).1.get? (2 * j) =
        some ⟨((pathTwo.getD ((if j = 0 then pathTwo.length else j) - 1) default).x
                  + (pathTwo.getD j default).x) / 2,
              ((pathTwo.getD ((if j = 0 then pathTwo.length else j) - 1) default).y
                  + (pathTwo.getD j default).y) / 2,
              ((pathTwo.getD ((if j = 0 then pathTwo.length else j) - 1) default).r
                  + (pathTwo.getD j default).r) * 0 / 2⟩) :=
  generateLayer_deterministic gZero (fun i => i) 1 0 pathTwo (Or.inl rfl) (by decide)

/-! ## C5: the layer-set generator -/

lemma generateLayersAux_length (g : RandStream) (br t : ℚ) (iters : ℕ)
    (base : List WPoint) :
    ∀ n k, (generateLayersAux g br t iters base n k).1.length = n := by
  intro n
  induction n with
  | zero =>
    intro k
    rfl
  | succ n ih =>
    intro k
    simp [generateLayersAux, ih]

lemma generateLayersAux_mem (g : RandStream) (br t : ℚ) (iters : ℕ)
    (base : List WPoint) :
    ∀ n k l, l ∈ (generateLayersAux g br t iters base n k).1 →
      ∃ kl, l = (generateLayerAux g br t iters base kl).1 := by
  intro n
  induction n with
  | zero =>
    intro k l hl
    simp [generateLayersAux] at hl
  | succ n ih =>
    intro k l hl
    simp only [generateLayersAux, List.mem_cons] at hl
    rcases hl with hl | hl
    · exact ⟨k, hl⟩
    · exact ih _ l hl

/-- C5: generatePathList returns exactly `layers` paths; a single shared
base path is produced by subdividing the input `preIterations` times, each
returned layer is produced by subdividing that same base path a further
`iterations` times (at some draw position), and every returned layer has
vertex count L * 2^(preIterations + iterations) for an input of length L. -/
theorem generatePathList_spec (g : RandStream) (o : PathListOptions) (k : ℕ) :
    (generatePathList g o k).1.length = o.layers ∧
    ∀ l ∈ (generatePathList g o k).1,
      l.length = o.path.length * 2 ^ (o.preIterations + o.iterations) ∧
      ∃ kl, l = (generateLayerAux g o.baseRadius o.temperature o.iterations
          (generateLayerAux g o.baseRadius o.temperature o.preIterations o.path k).1 kl).1 := by
  constructor
  · exact generateLayersAux_length g o.baseRadius o.temperature o.iterations _ o.layers _
  · intro l hl
    obtain ⟨kl, rfl⟩ := generateLayersAux_mem g o.baseRadius o.temperature o.iterations
      _ o.layers _ l hl
    refine ⟨?_, kl, rfl⟩
    rw [generateLayerAux_length, generateLayerAux_length, pow_add]
    ring

/-- Witness for C5 at the one-layer, zero-iteration configuration. -/
theorem generatePathList_spec_witness :
    (generatePathList gZero optsTwo 0).1.length = optsTwo.layers ∧
    (pathTwo.length = optsTwo.path.length
        * 2 ^ (optsTwo.preIterations + optsTwo.iterations) ∧
     ∃ kl, pathTwo = (generateLayerAux gZero optsTwo.baseRadius optsTwo.temperature
        optsTwo.iterations
        (generateLayerAux gZero optsTwo.baseRadius optsTwo.temperature
          optsTwo.preIterations optsTwo.path 0).1 kl).1) :=
  ⟨(generatePathList_spec gZero optsTwo 0).1,
   (generatePathList_spec gZero optsTwo 0).2 pathTwo (by decide)⟩

/-! ## C3: push truncates, and the push/push/undo/push scenario -/

/-- C3: push first truncates the snapshot sequence to length cursor, then
appends a snapshot of the current buffer and increments the cursor; the
action sequence push, push, undo, push from the initial state (with paints
in between) leaves exactly 2 snapshots with cursor 2, and a subsequent
redo is a no-op. -/
theorem hist_push_truncates (Buf : Type) (blank b0 b1 b2 b3 : Buf) :
    (∀ (st : HistState Buf) (b : Buf),
        (histStep blank st (some b) .push).1.history
            = st.history.take st.index.toNat ++ [b] ∧
        (histStep blank st (some b) .push).1.index = st.index + 1) ∧
    ((runEvents blank (histInit Buf) (some b0)
        [.paint b1, .act .push, .paint b2, .act .push, .act .undo,
         .paint b3, .act .push]).1.history.length = 2 ∧
     (runEvents blank (histInit Buf) (some b0)
        [.paint b1, .act .push, .paint b2, .act .push, .act .undo,
         .paint b3, .act .push]).1.index = 2 ∧
     histStep blank
       (runEvents blank (histInit Buf) (some b0)
          [.paint b1, .act .push, .paint b2, .act .push, .act .undo,
           .paint b3, .act .push]).1
       (runEvents blank (histInit Buf) (some b0)
          [.paint b1, .act .push, .paint b2, .act .push, .act .undo,
           .paint b3, .act .push]).2 .redo
       = runEvents blank (histInit Buf) (some b0)
          [.paint b1, .act .push, .paint b2, .act .push, .act .undo,
           .paint b3, .act .push]) :=
  ⟨fun _ _ => ⟨rfl, rfl⟩, rfl, rfl, rfl⟩

/-! ## C4: undo/redo round trips and boundary no-ops -/

/-- C4: after push, push, undo the buffer equals its state after the first
push; after push, undo, redo the buffer equals its state after the push;
undo at cursor 0 and redo at cursor = length leave state and buffer
unchanged; undo from cursor 1 clears the buffer to the blank background
rather than restoring any stored snapshot. -/
theorem hist_undo_redo_spec (Buf : Type) (blank b0 b1 b2 : Buf) :
    (runEvents blank (histInit Buf) (some b0)
        [.paint b1, .act .push, .paint b2, .act .push, .act .undo]).2 =
      (runEvents blank (histInit Buf) (some b0) [.paint b1, .act .push]).2 ∧
    (runEvents blank (histInit Buf) (some b0)
        [.paint b1, .act .push, .act .undo, .act .redo]).2 =
      (runEvents blank (histInit Buf) (some b0) [.paint b1, .act .push]).2 ∧
    (∀ (h : List Buf) (b : Buf),
        histStep blank ⟨h, 0⟩ (some b) .undo = (⟨h, 0⟩, some b)) ∧
    (∀ (h : List Buf) (b : Buf),
        histStep blank ⟨h, (h.length : ℤ)⟩ (some b) .redo
          = (⟨h, (h.length : ℤ)⟩, some b)) ∧
    (∀ (h : List Buf) (b : Buf),
        histStep blank ⟨h, 1⟩ (some b) .undo = (⟨h, 0⟩, some blank)) := by
  refine ⟨rfl, rfl, fun h b => rfl, fun h b => ?_, fun h b => rfl⟩
  simp [histStep]

/-! ## C9: the cursor invariant -/

lemma histStep_inv {Buf : Type} (blank : Buf) (st : HistState Buf) (buf : Option Buf)
    (a : HistAction) (h : HistInv st) : HistInv (histStep blank st buf a).1 := by
  obtain ⟨h0, h1⟩ := h
  cases buf with
  | none => exact ⟨h0, h1⟩
  | some b =>
    cases a with
    | push =>
      simp only [histStep, HistInv, List.length_append, List.length_take,
        List.length_cons, List.length_nil]
      push_cast
      omega
    | undo =>
      simp only [histStep, HistInv]
      split
      · constructor <;> (dsimp only; omega)
      · exact ⟨h0, h1⟩
    | redo =>
      simp only [histStep, HistInv]
      split
      · constructor <;> (dsimp only; omega)
      · exact ⟨h0, h1⟩
    | clear =>
      exact ⟨le_refl 0, by simp [histStep]⟩

lemma runEvents_inv {Buf : Type} (blank : Buf) :
    ∀ (es : List (Event Buf)) (st : HistState Buf) (buf : Option Buf),
      HistInv st → HistInv (runEvents blank st buf es).1 := by
  intro es
  induction es with
  | nil =>
    intro st buf h
    exact h
  | cons e es ih =>
    intro st buf h
    cases e with
    | paint b => exact ih st (some b) h
    | act a => exact ih _ _ (histStep_inv blank st buf a h)

/-- C9: the cursor invariant 0 ≤ cursor ≤ length holds in the initial
state ([], 0), is preserved by every transition (push, undo, redo, clear)
including dispatches with an absent buffer, and therefore holds in every
history state reachable by a sequence of session events. -/
theorem hist_cursor_invariant (Buf : Type) (blank : Buf) :
    HistInv (histInit Buf) ∧
    (∀ (st : HistState Buf) (buf : Option Buf) (a : HistAction),
        HistInv st → HistInv (histStep blank st buf a).1) ∧
    (∀ (buf : Option Buf) (es : List (Event Buf)),
        HistInv (runEvents blank (histInit Buf) buf es).1) :=
  ⟨⟨le_refl 0, by simp [histInit]⟩,
   fun st buf a h => histStep_inv blank st buf a h,
   fun buf es => runEvents_inv blank es (histInit Buf) buf ⟨le_refl 0, by simp [histInit]⟩⟩

/-- Witness for C9 over natural-number buffers, applied at a concrete
dispatch whose invariant hypothesis is discharged by computation. -/
theorem hist_cursor_invariant_witness :
    HistInv (histInit ℕ) ∧ HistInv (histStep 0 (histInit ℕ) (some 7) .push).1 :=
  ⟨(hist_cursor_invariant ℕ 0).1,
   (hist_cursor_invariant ℕ 0).2.1 (histInit ℕ) (some 7) .push (by decide)⟩

/-! ## C6: range of the uniform jitter sampler -/

/-- C6 counterexample: at radius 0 the half-open interval
[center − radius, center + radius) is empty, so the returned value (the
center itself; here center 0, draw 0) does not lie in it. -/
theorem uniform_interval_counterexample :
    ¬ ((0 : ℚ) - 0 ≤ uniform 0 0 0 ∧ uniform 0 0 0 < 0 + 0) := by
  norm_num [uniform]

/-- C6 (amended): for every draw in [0,1), when radius > 0 the sampled
value lies in the half-open interval [center − radius, center + radius);
when radius = 0 the sampler returns center exactly. -/
theorem uniform_range (rand c r : ℚ) (h0 : 0 ≤ rand) (h1 : rand < 1) :
    (0 < r → c - r ≤ uniform rand c r ∧ uniform rand c r < c + r) ∧
    uniform rand c 0 = c := by
  constructor
  · intro hr
    unfold uniform
    constructor
    · nlinarith
    · nlinarith
  · unfold uniform
    ring

/-- Witness for C6 at draw 1/2, center 0, radius 1. -/
theorem uniform_range_witness :
    ((0 : ℚ) ≤ 1 / 2 ∧ (1 / 2 : ℚ) < 1) ∧
    ((0 < (1 : ℚ) → (0 : ℚ) - 1 ≤ uniform (1 / 2) 0 1 ∧ uniform (1 / 2) 0 1 < 0 + 1) ∧
     uniform (1 / 2) (0 : ℚ) 0 = 0) :=
  ⟨⟨by norm_num, by norm_num⟩, uniform_range (1 / 2) 0 1 (by norm_num) (by norm_num)⟩

/-! ## C7: the mask stage is skipped when filterRadius or filterWeight is 0 -/

/-- C7: if filterRadius or filterWeight is zero the mask application stage
is skipped entirely: the painted output buffer is the buffer produced by
the same pipeline with the mask stage omitted. -/
theorem paintedCanvas_skip_mask (Buf : Type) (render : List (List WPoint) → Buf)
    (applyFilter : ℚ → ℚ → Buf → Buf) (g : RandStream) (o : PathListOptions)
    (fr fw : ℚ) (k : ℕ) (h : fr = 0 ∨ fw = 0) :
    generatePaintedCanvas Buf render applyFilter g o fr fw k
      = render (generatePathList g o k).1 := by
  rcases h with h | h <;> simp [generatePaintedCanvas, h]

/-- Witness for C7 with filterRadius 0, filterWeight 5, length as renderer. -/
theorem paintedCanvas_skip_mask_witness :
    ((0 : ℚ) = 0 ∨ (5 : ℚ) = 0) ∧
    generatePaintedCanvas ℕ List.length (fun _ _ b => b + 1) gZero optsTwo 0 5 0
      = List.length (generatePathList gZero optsTwo 0).1 :=
  ⟨Or.inl rfl,
   paintedCanvas_skip_mask ℕ List.length (fun _ _ b => b + 1) gZero optsTwo 0 5 0 (Or.inl rfl)⟩

/-! ## C8: the mask alpha formula -/

/-- C8: every pixel's computed alpha equals
255 + min(0, (blurredValue/256 − 128) * weight) with
weight = filterRadius^1.5 * filterWeight; for filterRadius ≥ 0 and
filterWeight ≥ 0 the computed value never exceeds 255; and the formula
itself has no lower bound of 0: the value before storage can be negative. -/
theorem maskAlpha_spec :
    (∀ (u16array : ℕ → ℝ) (blurWidth padding : ℕ) (fr fw : ℝ) (i j : ℕ),
        filterAlphaAt u16array blurWidth padding fr fw i j =
          255 + min 0 ((u16array ((i + padding) * blurWidth + j + padding) / 256 - 128)
            * (fr ^ (1.5 : ℝ) * fw))) ∧
    (∀ fr fw u16 : ℝ, 0 ≤ fr → 0 ≤ fw → maskAlpha fr fw u16 ≤ 255) ∧
    (∃ fr fw u16 : ℝ, 0 ≤ fr ∧ 0 ≤ fw ∧ maskAlpha fr fw u16 < 0) := by
  refine ⟨fun _ _ _ _ _ _ _ => rfl, ?_, ?_⟩
  · intro fr fw u16 _ _
    have hmin : min 0 ((u16 / 256 - 128) * maskWeight fr fw) ≤ 0 := min_le_left _ _
    unfold maskAlpha
    linarith
  · refine ⟨1, 4, 0, by norm_num, by norm_num, ?_⟩
    unfold maskAlpha maskWeight
    rw [Real.one_rpow]
    have h1 : ((0 : ℝ) / 256 - 128) * (1 * 4) = -512 := by norm_num
    rw [h1]
    have h2 : min (0 : ℝ) (-512) = -512 := by norm_num [min_def]
    rw [h2]
    norm_num

/-- Witness for C8 at filterRadius 2, filterWeight 3, blurred value 0. -/
theorem maskAlpha_spec_witness :
    ((0 : ℝ) ≤ 2 ∧ (0 : ℝ) ≤ 3) ∧ maskAlpha 2 3 0 ≤ 255 :=
  ⟨⟨by norm_num, by norm_num⟩, maskAlpha_spec.2.1 2 3 0 (by norm_num) (by norm_num)⟩

end Watercolor
